import Mathlib

/-!
Verification of the Temp repository: the retrieval/fusion engine described in
the specification (merge/dedup/top-k, hybrid fan-out, vector-store contract)
and the chat-table operations implemented in `src/temp.py`.

The retrieval engine itself is repository code that is not present under
`src/`; its operations are modelled from the specification text and each such
definition is marked `Modelled from the spec:`.  The chat-table operations are
translated directly from `src/temp.py`.
-/

namespace Temp

/-! ## Part 1: merge/dedup/top-k engine (spec-modelled) -/

/-- A scored document triple `(score, document, metadata)` as flowing into the
cross-collection merge.  Scores are modelled as rationals. -/
structure ScoredDoc where
  score : ℚ
  document : String
  metadata : List (String × String)
deriving DecidableEq, Repr

/-- Modelled from the spec: one step of the merge-map construction.  "For each
incoming `(score, document, metadata)` triple: if the hash is unseen, insert
it; if seen, keep whichever has the higher score."  Content hashes of document
texts are modelled as the texts themselves (hash equality = text equality). -/
def mergeInsert (acc : List ScoredDoc) (t : ScoredDoc) : List ScoredDoc :=
  if acc.any (fun e => e.document == t.document) then
    acc.map (fun e => if e.document == t.document then
      (if e.score < t.score then t else e) else e)
  else
    acc ++ [t]

/-- Modelled from the spec: the dedup-by-content-hash map of `mergeAndSort`,
built over the incoming triples in encounter order. -/
def dedupMax (ts : List ScoredDoc) : List ScoredDoc :=
  ts.foldl mergeInsert []

/-- Insert into a descending-sorted list, after any element of greater-or-equal
score (so that the overall sort is stable). -/
def insertByDesc {α : Type} (f : α → ℚ) (x : α) : List α → List α
  | [] => [x]
  | y :: ys => if f y ≤ f x then x :: y :: ys else y :: insertByDesc f x ys

/-- Stable insertion sort, descending by the given score function. -/
def sortByDesc {α : Type} (f : α → ℚ) (l : List α) : List α :=
  l.foldr (insertByDesc f) []

/-- Modelled from the spec: `mergeAndSort` — build the dedup-max map, sort its
values descending by score (stable), truncate to the requested `k`. -/
def mergeAndSort (ts : List ScoredDoc) (k : Nat) : List ScoredDoc :=
  (sortByDesc (fun e => e.score) (dedupMax ts)).take k

/-- First-encounter deduplication of a list of keys (used to state in which
order `dedupMax` keeps documents). -/
def keepFirstAux (seen : List String) : List String → List String
  | [] => []
  | d :: ds => if d ∈ seen then keepFirstAux seen ds else d :: keepFirstAux (d :: seen) ds

/-- Keys in first-encounter order. -/
def keepFirst (l : List String) : List String :=
  keepFirstAux [] l

/-! ## Part 2: hybrid fan-out coordinator (spec-modelled) -/

/-- One `(collection, query)` unit of work of the hybrid fan-out, together with
its outcome: `none` models a task that failed (raised / timed out), `some rs`
a task that succeeded with the scored documents `rs`. -/
structure HybridTask where
  collection : String
  query : String
  result : Option (List ScoredDoc)
deriving DecidableEq, Repr

/-- Modelled from the spec: `queryCollectionHybrid` — dispatch one task per
`(collection, query)` pair; "if every `(collection, query)` task fails, the
coordinator raises a `HybridSearchExhausted` signal"; otherwise the successful
tasks' results are merged per query with `mergeAndSort`.  The error value `()`
stands for `HybridSearchExhausted`. -/
def queryCollectionHybrid (tasks : List HybridTask) (queries : List String)
    (k : Nat) : Except Unit (List (List ScoredDoc)) :=
  if tasks.all (fun t => t.result.isNone) then
    Except.error ()
  else
    Except.ok (queries.map (fun q =>
      mergeAndSort
        (((tasks.filter (fun t => t.query == q)).map
          (fun t => t.result.getD [])).flatten) k))

/-! ## Part 3: vector-store similarity and dimension guard (spec-modelled) -/

/-- Dot product of two real vectors of a fixed dimension. -/
def dotR {n : Nat} (u v : Fin n → ℝ) : ℝ :=
  ∑ i, u i * v i

/-- Euclidean norm. -/
noncomputable def normR {n : Nat} (u : Fin n → ℝ) : ℝ :=
  Real.sqrt (dotR u u)

/-- Modelled from the spec: "Distance metric is cosine distance over the
embedding space". -/
noncomputable def cosineDistance {n : Nat} (u v : Fin n → ℝ) : ℝ :=
  1 - dotR u v / (normR u * normR v)

/-- Modelled from the spec: "reported similarity is computed as
`(2 − cosine_distance) / 2`". -/
noncomputable def similarity {n : Nat} (u v : Fin n → ℝ) : ℝ :=
  (2 - cosineDistance u v) / 2

/-- Modelled from the spec: "Vector-length normalization: any incoming vector
shorter than D is zero-padded; longer than D fails with `DimensionError`."
The error string stands for the `DimensionError` signal. -/
def normalizeVector (D : Nat) (v : List ℚ) : Except String (List ℚ) :=
  if D < v.length then Except.error "DimensionError"
  else Except.ok (v ++ List.replicate (D - v.length) 0)

/-! ## Part 4: batched store search (spec-modelled, for the empty-result shape) -/

/-- A stored item: id, vector, text, metadata. -/
structure VectorItem where
  id : String
  vector : List ℚ
  text : String
  metadata : List (String × String)
deriving DecidableEq, Repr

/-- A batched search result: four equal-length outer sequences of inner
sequences, one inner sequence per probe vector. -/
structure SearchResult where
  ids : List (List String)
  distances : List (List ℚ)
  documents : List (List String)
  metadatas : List (List (List (String × String)))
deriving DecidableEq, Repr

/-- The per-probe top-`limit` scan: items ordered descending by similarity to
the probe, truncated to `limit`. -/
def topFor (sim : List ℚ → List ℚ → ℚ) (items : List VectorItem)
    (v : List ℚ) (limit : Nat) : List VectorItem :=
  (sortByDesc (fun it => sim v it.vector) items).take limit

/-- Modelled from the spec: `search(collection, vectors, limit)` — batched
k-NN over a snapshot of the collection's items, parametrised by the similarity
scoring function; "Empty vector list → returns nothing (no-op, not an
error)". -/
def searchStore (sim : List ℚ → List ℚ → ℚ) (items : List VectorItem)
    (vectors : List (List ℚ)) (limit : Nat) : Option SearchResult :=
  if vectors.isEmpty then none
  else some
    { ids := vectors.map (fun v => (topFor sim items v limit).map (fun it => it.id))
      distances := vectors.map (fun v => (topFor sim items v limit).map (fun it => sim v it.vector))
      documents := vectors.map (fun v => (topFor sim items v limit).map (fun it => it.text))
      metadatas := vectors.map (fun v => (topFor sim items v limit).map (fun it => it.metadata)) }

/-! ## Part 5: chat table (`src/temp.py`)

JSON values stored in the `chat` / `meta` columns, with Python `dict`
semantics: a dict is a key-ordered association list with unique keys;
`d[k] = v` replaces in place, `d.get(k, default)` reads, `{**a, **b}` merges
with `b`'s keys taking precedence. -/

inductive PyVal where
  | pyNone : PyVal
  | pyBool : Bool → PyVal
  | pyInt : Int → PyVal
  | pyStr : String → PyVal
  | pyList : List PyVal → PyVal
  | pyDict : List (String × PyVal) → PyVal

/-- Python `d.get(k)` / `k in d` lookup on a dict. -/
def dictGet (d : List (String × PyVal)) (k : String) : Option PyVal :=
  (d.find? (fun p => p.1 == k)).map (fun p => p.2)

/-- Python `d[k] = v`: replace the value at the first occurrence of `k`, or
append `(k, v)` when `k` is absent. -/
def dictSet : List (String × PyVal) → String → PyVal → List (String × PyVal)
  | [], k, v => [(k, v)]
  | (k', v') :: rest, k, v =>
    if k' == k then (k, v) :: rest else (k', v') :: dictSet rest k v

/-- Python `{**a, **b}`: `a`'s entries, then `b`'s entries with `b` taking
precedence. -/
def dictMerge (a b : List (String × PyVal)) : List (String × PyVal) :=
  b.foldl (fun acc p => dictSet acc p.1 p.2) a

/-- Python "the value must be a mapping" coercion; anything else raises. -/
def asDict : PyVal → Except String (List (String × PyVal))
  | PyVal.pyDict d => Except.ok d
  | _ => Except.error "TypeError"

/-- One row of the `chat` table (`class Chat` in `src/temp.py`).  The `title`
column holds whatever JSON value the code assigns to it. -/
structure ChatRow where
  id : String
  user_id : String
  title : PyVal
  chat : List (String × PyVal)
  created_at : Int
  updated_at : Int
  share_id : Option String
  archived : Bool
  pinned : Option Bool
  meta : List (String × PyVal)
  folder_id : Option String

/-- The chat table: a list of rows. -/
abbrev ChatDB := List ChatRow

/-- `db.get(Chat, id)`: primary-key lookup. -/
def get_chat_by_id (db : ChatDB) (id : String) : Option ChatRow :=
  db.find? (fun r => r.id == id)

/-- Replace the first row satisfying `p` by its image under `f` (the model of
mutating the row object returned by `db.get` and committing). -/
def updateFirst {α : Type} (p : α → Bool) (f : α → α) : List α → List α
  | [] => []
  | x :: xs => if p x then f x :: xs else x :: updateFirst p f xs

/-- `ChatTable.delete_shared_chat_by_chat_id`: delete every row whose
`user_id` is `"shared-<chat_id>"`; return whether the statement's rowcount was
positive. -/
def delete_shared_chat_by_chat_id (db : ChatDB) (chat_id : String) :
    ChatDB × Bool :=
  let remaining := db.filter (fun r => !(r.user_id == "shared-" ++ chat_id))
  (remaining, decide (remaining.length < db.length))

/-- `ChatTable.delete_chat_by_id`: delete the row with the given id, then
return `True and delete_shared_chat_by_chat_id(id)`. -/
def delete_chat_by_id (db : ChatDB) (id : String) : ChatDB × Bool :=
  let db1 := db.filter (fun r => !(r.id == id))
  let res := delete_shared_chat_by_chat_id db1 id
  (res.1, true && res.2)

/-- `ChatTable.delete_chat_by_id_and_user_id`: delete the row matching both id
and user id, then return `True and delete_shared_chat_by_chat_id(id)`. -/
def delete_chat_by_id_and_user_id (db : ChatDB) (id user_id : String) :
    ChatDB × Bool :=
  let db1 := db.filter (fun r => !(r.id == id && r.user_id == user_id))
  let res := delete_shared_chat_by_chat_id db1 id
  (res.1, true && res.2)

/-- The field assignments performed by
`ChatTable.update_chat_folder_id_by_id_and_user_id` on the fetched row. -/
def setFolder (folder_id : String) (now : Int) (r : ChatRow) : ChatRow :=
  { r with folder_id := some folder_id, updated_at := now, pinned := some false }

/-- `ChatTable.update_chat_folder_id_by_id_and_user_id`: fetch the row by
primary key (the `user_id` argument is not used in the lookup), set
`folder_id`, `updated_at` and `pinned = False`, commit, and return the
refreshed row; `None` when the row does not exist.  `now` stands for
`int(time.time())`. -/
def update_chat_folder_id_by_id_and_user_id (db : ChatDB)
    (id _user_id folder_id : String) (now : Int) : ChatDB × Option ChatRow :=
  match db.find? (fun r => r.id == id) with
  | none => (db, none)
  | some r =>
      (updateFirst (fun s => s.id == id) (setFolder folder_id now) db,
        some (setFolder folder_id now r))

/-- The field assignments performed by `ChatTable.update_chat_by_id`:
`chat`, `title = chat["title"] if "title" in chat else "New Chat"`,
`updated_at = now`. -/
def setChat (chat : List (String × PyVal)) (now : Int) (r : ChatRow) : ChatRow :=
  { r with
    chat := chat
    title := (dictGet chat "title").getD (PyVal.pyStr "New Chat")
    updated_at := now }

/-- `ChatTable.update_chat_by_id`: fetch by primary key, assign the new chat
JSON, the derived title and `updated_at`, commit and return the row; `None`
when absent. -/
def update_chat_by_id (db : ChatDB) (id : String)
    (chat : List (String × PyVal)) (now : Int) : ChatDB × Option ChatRow :=
  match db.find? (fun r => r.id == id) with
  | none => (db, none)
  | some r =>
      (updateFirst (fun s => s.id == id) (setChat chat now) db,
        some (setChat chat now r))

/-- `ChatTable.upsert_message_to_chat_by_id_and_message_id`, statement by
statement.  A `.error` value models an uncaught Python exception escaping the
call (the function body has no `try`): in particular
`history["messages"][message_id] = message` raises `KeyError` when the history
has no `"messages"` key. -/
def upsert_message_to_chat_by_id_and_message_id (db : ChatDB)
    (id message_id : String) (message : List (String × PyVal)) (now : Int) :
    Except String (ChatDB × Option ChatRow) :=
  match get_chat_by_id db id with
  | none => Except.ok (db, none)
  | some row =>
    match asDict ((dictGet row.chat "history").getD (PyVal.pyDict [])) with
    | Except.error e => Except.error e
    | Except.ok history =>
      match asDict ((dictGet history "messages").getD (PyVal.pyDict [])) with
      | Except.error e => Except.error e
      | Except.ok messages =>
        match
          (if (dictGet messages message_id).isSome then
            match dictGet messages message_id with
            | some (PyVal.pyDict old) =>
                Except.ok (PyVal.pyDict (dictMerge old message))
            | _ => Except.error "TypeError"
          else Except.ok (PyVal.pyDict message) : Except String PyVal) with
        | Except.error e => Except.error e
        | Except.ok newMsgVal =>
          match dictGet history "messages" with
          | some (PyVal.pyDict m) =>
            Except.ok (update_chat_by_id db id
              (dictSet row.chat "history" (PyVal.pyDict
                (dictSet
                  (dictSet history "messages"
                    (PyVal.pyDict (dictSet m message_id newMsgVal)))
                  "currentId" (PyVal.pyStr message_id)))) now)
          | some _ => Except.error "TypeError"
          | none => Except.error "KeyError"

/-! ## Part 6: properties of the stable descending sort -/

/-- Sorted descending with respect to a score function. -/
def SortedDescBy {α : Type} (f : α → ℚ) (l : List α) : Prop :=
  List.Pairwise (fun a b => f b ≤ f a) l

theorem insertByDesc_perm {α : Type} (f : α → ℚ) (x : α) (l : List α) :
    (insertByDesc f x l).Perm (x :: l) := by
  induction l with
  | nil => simp [insertByDesc]
  | cons y ys ih =>
      by_cases h : f y ≤ f x
      · simp [insertByDesc, h]
      · simp only [insertByDesc, if_neg h]
        exact (ih.cons y).trans (List.Perm.swap x y ys)

theorem sortByDesc_perm {α : Type} (f : α → ℚ) (l : List α) :
    (sortByDesc f l).Perm l := by
  induction l with
  | nil => simp [sortByDesc]
  | cons x xs ih =>
      exact (insertByDesc_perm f x (sortByDesc f xs)).trans (ih.cons x)

theorem mem_insertByDesc {α : Type} {f : α → ℚ} {x e : α} {l : List α} :
    e ∈ insertByDesc f x l ↔ e = x ∨ e ∈ l := by
  rw [(insertByDesc_perm f x l).mem_iff, List.mem_cons]

theorem insertByDesc_sorted {α : Type} (f : α → ℚ) (x : α) (l : List α)
    (h : SortedDescBy f l) : SortedDescBy f (insertByDesc f x l) := by
  induction l with
  | nil => simp [insertByDesc, SortedDescBy]
  | cons y ys ih =>
      rcases h with _ | ⟨hy, hys⟩
      by_cases hxy : f y ≤ f x
      · simp only [insertByDesc, if_pos hxy]
        refine List.Pairwise.cons ?_ (List.Pairwise.cons hy hys)
        intro b hb
        rcases List.mem_cons.mp hb with rfl | hb
        · exact hxy
        · exact (hy b hb).trans hxy
      · simp only [insertByDesc, if_neg hxy]
        refine List.Pairwise.cons ?_ (ih hys)
        intro b hb
        rcases mem_insertByDesc.mp hb with rfl | hb
        · exact le_of_lt (lt_of_not_le hxy)
        · exact hy b hb

theorem sortByDesc_sorted {α : Type} (f : α → ℚ) (l : List α) :
    SortedDescBy f (sortByDesc f l) := by
  induction l with
  | nil => exact List.Pairwise.nil
  | cons x xs ih => exact insertByDesc_sorted f x (sortByDesc f xs) ih

/-- Stability of the insertion step: filtering at an exact score value commutes
with insertion, the inserted element landing in front. -/
theorem insertByDesc_filter {α : Type} (f : α → ℚ) (x : α) (l : List α) (s : ℚ) :
    (insertByDesc f x l).filter (fun e => f e == s) =
      if f x == s then x :: l.filter (fun e => f e == s)
      else l.filter (fun e => f e == s) := by
  induction l with
  | nil =>
      by_cases hx : f x = s
      · simp [insertByDesc, List.filter, beq_iff_eq, hx]
      · have hb : (f x == s) = false := by simp [hx]
        simp [insertByDesc, List.filter, hb, hx]
  | cons y ys ih =>
      by_cases hxy : f y ≤ f x
      · simp only [insertByDesc, if_pos hxy]
        by_cases hx : f x = s <;> simp [List.filter_cons, beq_iff_eq, hx]
      · have hlt : f x < f y := lt_of_not_le hxy
        simp only [insertByDesc, if_neg hxy]
        by_cases hx : f x = s
        · have hy : f y ≠ s := fun hys => absurd (hx ▸ hys ▸ hlt) (lt_irrefl _)
          simp [List.filter_cons, beq_iff_eq, hy, ih, hx]
        · by_cases hy : f y = s
          · simp [List.filter_cons, beq_iff_eq, hy, ih, hx]
          · simp [List.filter_cons, beq_iff_eq, hy, ih, hx]

/-- Stability of the sort: the subsequence of entries at any exact score value
is preserved. -/
theorem sortByDesc_filter {α : Type} (f : α → ℚ) (l : List α) (s : ℚ) :
    (sortByDesc f l).filter (fun e => f e == s) = l.filter (fun e => f e == s) := by
  induction l with
  | nil => rfl
  | cons x xs ih =>
      show (insertByDesc f x (sortByDesc f xs)).filter _ = _
      rw [insertByDesc_filter, ih]
      by_cases hx : f x == s
      · simp [List.filter_cons, hx]
      · simp [List.filter_cons, hx]

/-! ## Part 7: properties of the dedup-max map -/

theorem mergeInsert_mem {acc : List ScoredDoc} {t e : ScoredDoc}
    (h : e ∈ mergeInsert acc t) : e ∈ acc ∨ e = t := by
  unfold mergeInsert at h
  by_cases hany : acc.any (fun e => e.document == t.document) = true
  · rw [if_pos hany] at h
    obtain ⟨a, ha, hae⟩ := List.mem_map.mp h
    by_cases had : a.document = t.document
    · by_cases hlt : a.score < t.score
      · right
        rw [← hae]
        simp [had, hlt]
      · left
        have : (if (a.document == t.document) = true then
            if a.score < t.score then t else a else a) = a := by simp [had, hlt]
        rw [← hae, this]
        exact ha
    · left
      have : (if (a.document == t.document) = true then
          if a.score < t.score then t else a else a) = a := by simp [had]
      rw [← hae, this]
      exact ha
  · rw [if_neg hany] at h
    rcases List.mem_append.mp h with h | h
    · exact Or.inl h
    · exact Or.inr (List.mem_singleton.mp h)

theorem mergeInsert_score {acc : List ScoredDoc} {t e : ScoredDoc}
    (h : e ∈ mergeInsert acc t) (hd : e.document = t.document) :
    t.score ≤ e.score := by
  unfold mergeInsert at h
  by_cases hany : acc.any (fun e => e.document == t.document) = true
  · rw [if_pos hany] at h
    obtain ⟨a, _, hae⟩ := List.mem_map.mp h
    by_cases had : a.document = t.document
    · by_cases hlt : a.score < t.score
      · have : (if (a.document == t.document) = true then
            if a.score < t.score then t else a else a) = t := by simp [had, hlt]
        rw [← hae, this]
      · have : (if (a.document == t.document) = true then
            if a.score < t.score then t else a else a) = a := by simp [had, hlt]
        rw [← hae, this]
        exact le_of_not_lt hlt
    · have : (if (a.document == t.document) = true then
          if a.score < t.score then t else a else a) = a := by simp [had]
      rw [← hae, this] at hd
      exact absurd hd had
  · rw [if_neg hany] at h
    have hall : ∀ a ∈ acc, ¬ a.document = t.document := by
      have h' : acc.all (fun e => !(e.document == t.document)) = true := by
        rw [List.all_eq_not_any_not]
        simp only [Bool.not_not]
        simpa using hany
      intro a ha hc
      have := List.all_eq_true.mp h' a ha
      simp [hc] at this
    rcases List.mem_append.mp h with h | h
    · exact absurd hd (hall e h)
    · rw [List.mem_singleton.mp h]

theorem mergeInsert_exists_doc (acc : List ScoredDoc) (t : ScoredDoc) :
    ∃ a ∈ mergeInsert acc t, a.document = t.document := by
  by_cases hany : acc.any (fun e => e.document == t.document) = true
  · obtain ⟨a, ha, had⟩ := List.any_eq_true.mp hany
    have had' : a.document = t.document := by simpa using had
    by_cases hlt : a.score < t.score
    · refine ⟨t, ?_, rfl⟩
      unfold mergeInsert
      rw [if_pos hany]
      exact List.mem_map.mpr ⟨a, ha, by simp [had', hlt]⟩
    · refine ⟨a, ?_, had'⟩
      unfold mergeInsert
      rw [if_pos hany]
      exact List.mem_map.mpr ⟨a, ha, by simp [had', hlt]⟩
  · refine ⟨t, ?_, rfl⟩
    unfold mergeInsert
    rw [if_neg hany]
    simp

theorem mergeInsert_dominates {acc : List ScoredDoc} (t : ScoredDoc)
    {a : ScoredDoc} (ha : a ∈ acc) :
    ∃ b ∈ mergeInsert acc t, b.document = a.document ∧ a.score ≤ b.score := by
  by_cases hany : acc.any (fun e => e.document == t.document) = true
  · by_cases had : a.document = t.document
    · by_cases hlt : a.score < t.score
      · refine ⟨t, ?_, had.symm, le_of_lt hlt⟩
        unfold mergeInsert
        rw [if_pos hany]
        exact List.mem_map.mpr ⟨a, ha, by simp [had, hlt]⟩
      · refine ⟨a, ?_, rfl, le_refl _⟩
        unfold mergeInsert
        rw [if_pos hany]
        exact List.mem_map.mpr ⟨a, ha, by simp [had, hlt]⟩
    · refine ⟨a, ?_, rfl, le_refl _⟩
      unfold mergeInsert
      rw [if_pos hany]
      exact List.mem_map.mpr ⟨a, ha, by simp [had]⟩
  · refine ⟨a, ?_, rfl, le_refl _⟩
    unfold mergeInsert
    rw [if_neg hany]
    exact List.mem_append_left _ ha

theorem mergeInsert_docs (acc : List ScoredDoc) (t : ScoredDoc) :
    (mergeInsert acc t).map (fun e => e.document) =
      if acc.any (fun e => e.document == t.document) then
        acc.map (fun e => e.document)
      else acc.map (fun e => e.document) ++ [t.document] := by
  unfold mergeInsert
  by_cases hany : acc.any (fun e => e.document == t.document) = true
  · rw [if_pos hany, if_pos hany, List.map_map]
    refine List.map_congr_left (fun a _ => ?_)
    by_cases had : a.document = t.document
    · by_cases hlt : a.score < t.score
      · simp [Function.comp, had, hlt]
      · simp [Function.comp, had, hlt]
    · simp [Function.comp, had]
  · rw [if_neg hany, if_neg hany]
    simp

theorem keepFirstAux_congr {seen seen' : List String}
    (h : ∀ x, x ∈ seen ↔ x ∈ seen') (l : List String) :
    keepFirstAux seen l = keepFirstAux seen' l := by
  induction l generalizing seen seen' with
  | nil => rfl
  | cons d ds ih =>
      by_cases hd : d ∈ seen
      · rw [keepFirstAux, if_pos hd, keepFirstAux, if_pos ((h d).mp hd)]
        exact ih h
      · rw [keepFirstAux, if_neg hd, keepFirstAux, if_neg (fun hc => hd ((h d).mpr hc))]
        refine congrArg (d :: ·) (ih ?_)
        intro x
        simp only [List.mem_cons]
        exact or_congr Iff.rfl (h x)

theorem mem_keepFirstAux {seen : List String} {l : List String} {x : String} :
    x ∈ keepFirstAux seen l ↔ x ∈ l ∧ x ∉ seen := by
  induction l generalizing seen with
  | nil => simp [keepFirstAux]
  | cons d ds ih =>
      by_cases hd : d ∈ seen
      · rw [keepFirstAux, if_pos hd, ih]
        constructor
        · rintro ⟨hx, hns⟩
          exact ⟨List.mem_cons_of_mem _ hx, hns⟩
        · rintro ⟨hx, hns⟩
          rcases List.mem_cons.mp hx with rfl | hx
          · exact absurd hd hns
          · exact ⟨hx, hns⟩
      · rw [keepFirstAux, if_neg hd]
        constructor
        · intro hx
          rcases List.mem_cons.mp hx with rfl | hx
          · exact ⟨List.mem_cons_self _ _, hd⟩
          · obtain ⟨h1, h2⟩ := ih.mp hx
            exact ⟨List.mem_cons_of_mem _ h1,
              fun hc => h2 (List.mem_cons_of_mem _ hc)⟩
        · rintro ⟨hx, hns⟩
          rcases List.mem_cons.mp hx with rfl | hx
          · exact List.mem_cons_self _ _
          · by_cases hxd : x = d
            · exact hxd ▸ List.mem_cons_self _ _
            · exact List.mem_cons_of_mem _ (ih.mpr ⟨hx, by
                intro hc
                rcases List.mem_cons.mp hc with h | h
                · exact hxd h
                · exact hns h⟩)

theorem keepFirstAux_nodup (l : List String) (seen : List String) :
    (keepFirstAux seen l).Nodup := by
  induction l generalizing seen with
  | nil => exact List.nodup_nil
  | cons d ds ih =>
      by_cases hd : d ∈ seen
      · rw [keepFirstAux, if_pos hd]
        exact ih seen
      · rw [keepFirstAux, if_neg hd]
        refine List.Nodup.cons ?_ (ih (d :: seen))
        intro hc
        exact (mem_keepFirstAux.mp hc).2 (List.mem_cons_self _ _)

/-- The dedup map's keys are the document texts of the input triples, in
first-encounter order (generalised over the accumulator). -/
theorem dedupMax_go_docs (ts : List ScoredDoc) (acc : List ScoredDoc) :
    (ts.foldl mergeInsert acc).map (fun e => e.document) =
      acc.map (fun e => e.document) ++
        keepFirstAux (acc.map (fun e => e.document)) (ts.map (fun e => e.document)) := by
  induction ts generalizing acc with
  | nil => simp [keepFirstAux]
  | cons t rest ih =>
      rw [List.foldl_cons, ih, List.map_cons]
      by_cases hmem : t.document ∈ acc.map (fun e => e.document)
      · have hany : acc.any (fun e => e.document == t.document) = true := by
          obtain ⟨a, ha, hd⟩ := List.mem_map.mp hmem
          exact List.any_eq_true.mpr ⟨a, ha, by simp [hd]⟩
        rw [mergeInsert_docs, if_pos hany, keepFirstAux, if_pos hmem]
      · have hany : acc.any (fun e => e.document == t.document) = false := by
          rw [List.any_eq_false]
          intro a ha hc
          exact hmem (List.mem_map.mpr ⟨a, ha, by simpa using hc⟩)
        rw [mergeInsert_docs, if_neg (by simp [hany]), keepFirstAux, if_neg hmem,
          List.append_assoc]
        refine congrArg _ (congrArg _ ?_)
        refine keepFirstAux_congr (fun x => ?_) _
        simp only [List.mem_append, List.mem_cons, List.mem_singleton,
          List.not_mem_nil, or_false]
        exact or_comm

/-- The dedup map holds the documents of the merge input in first-encounter
order. -/
theorem dedupMax_docs (ts : List ScoredDoc) :
    (dedupMax ts).map (fun e => e.document) = keepFirst (ts.map (fun e => e.document)) := by
  simpa [keepFirst] using dedupMax_go_docs ts []

theorem dedupMax_docs_nodup (ts : List ScoredDoc) :
    ((dedupMax ts).map (fun e => e.document)).Nodup := by
  rw [dedupMax_docs]
  exact keepFirstAux_nodup _ _

theorem mem_docs_dedupMax {ts : List ScoredDoc} {d : String} :
    d ∈ (dedupMax ts).map (fun e => e.document) ↔ d ∈ ts.map (fun e => e.document) := by
  rw [dedupMax_docs, keepFirst, mem_keepFirstAux]
  simp

theorem mergeInsert_docs_nodup {acc : List ScoredDoc} (t : ScoredDoc)
    (h : (acc.map (fun e => e.document)).Nodup) :
    ((mergeInsert acc t).map (fun e => e.document)).Nodup := by
  rw [mergeInsert_docs]
  by_cases hany : acc.any (fun e => e.document == t.document) = true
  · rwa [if_pos hany]
  · rw [if_neg hany]
    rw [List.nodup_append]
    refine ⟨h, List.nodup_singleton _, ?_⟩
    intro x hx hc
    rw [List.mem_singleton] at hc
    subst hc
    obtain ⟨a, ha, hd⟩ := List.mem_map.mp hx
    have : acc.any (fun e => e.document == t.document) = true :=
      List.any_eq_true.mpr ⟨a, ha, by simp [hd]⟩
    exact hany this

/-- Strong invariant of the dedup-max fold: every surviving entry is one of the
incoming triples (or was already in the accumulator) and its score dominates
every incoming triple with the same document. -/
theorem dedupMax_go_strong (ts : List ScoredDoc) (acc : List ScoredDoc)
    (hnd : (acc.map (fun e => e.document)).Nodup) :
    ∀ e ∈ ts.foldl mergeInsert acc,
      (e ∈ acc ∨ e ∈ ts) ∧
      (∀ a ∈ acc, a.document = e.document → a.score ≤ e.score) ∧
      (∀ t ∈ ts, t.document = e.document → t.score ≤ e.score) := by
  induction ts generalizing acc with
  | nil =>
      intro e he
      rw [List.foldl_nil] at he
      refine ⟨Or.inl he, ?_, by simp⟩
      intro a ha had
      have : a = e := List.inj_on_of_nodup_map hnd ha he had
      rw [this]
  | cons t rest ih =>
      intro e he
      rw [List.foldl_cons] at he
      have hnd' := mergeInsert_docs_nodup t hnd
      obtain ⟨hmem, hacc', hrest⟩ := ih (mergeInsert acc t) hnd' e he
      refine ⟨?_, ?_, ?_⟩
      · rcases hmem with hm | hm
        · rcases mergeInsert_mem hm with hm | hm
          · exact Or.inl hm
          · exact Or.inr (hm ▸ List.mem_cons_self _ _)
        · exact Or.inr (List.mem_cons_of_mem _ hm)
      · intro a ha had
        obtain ⟨b, hb, hbd, hba⟩ := mergeInsert_dominates t ha
        exact hba.trans (hacc' b hb (hbd.trans had))
      · intro u hu hud
        rcases List.mem_cons.mp hu with rfl | hu
        · obtain ⟨b, hb, hbd⟩ := mergeInsert_exists_doc acc u
          exact (mergeInsert_score hb hbd).trans (hacc' b hb (hbd.trans hud))
        · exact hrest u hu hud

/-- Every entry of the dedup map is an incoming triple whose score dominates
all incoming triples for the same document. -/
theorem dedupMax_strong (ts : List ScoredDoc) :
    ∀ e ∈ dedupMax ts, e ∈ ts ∧
      ∀ t ∈ ts, t.document = e.document → t.score ≤ e.score := by
  intro e he
  obtain ⟨hmem, _, hts⟩ := dedupMax_go_strong ts [] (by simp) e he
  refine ⟨?_, hts⟩
  rcases hmem with h | h
  · exact absurd h (List.not_mem_nil e)
  · exact h

/-- When the input documents are already distinct, the dedup map is the input
itself. -/
theorem dedupMax_eq_of_nodup {ts : List ScoredDoc}
    (h : (ts.map (fun e => e.document)).Nodup) : dedupMax ts = ts := by
  suffices hgen : ∀ (ts acc : List ScoredDoc),
      ((acc ++ ts).map (fun e => e.document)).Nodup →
      ts.foldl mergeInsert acc = acc ++ ts by
    simpa using hgen ts [] (by simpa using h)
  intro ts
  induction ts with
  | nil => intro acc _; simp
  | cons t rest ih =>
      intro acc hnd
      rw [List.foldl_cons]
      have hany : acc.any (fun e => e.document == t.document) = false := by
        rw [List.any_eq_false]
        intro a ha hc
        have hc' : a.document = t.document := by simpa using hc
        have h1 : a.document ∈ acc.map (fun e => e.document) :=
          List.mem_map.mpr ⟨a, ha, rfl⟩
        have h2 : a.document ∈ (t :: rest).map (fun e => e.document) := by
          rw [List.map_cons, hc']
          exact List.mem_cons_self _ _
        rw [List.map_append, List.nodup_append] at hnd
        exact hnd.2.2 h1 h2
      have hstep : mergeInsert acc t = acc ++ [t] := by
        unfold mergeInsert
        rw [if_neg (by simp [hany])]
      rw [hstep]
      have := ih (acc ++ [t]) (by simpa using hnd)
      rw [this, List.append_assoc]
      rfl

/-- Membership in the merged output implies membership in the dedup map. -/
theorem mem_dedupMax_of_mem_mergeAndSort {ts : List ScoredDoc} {k : Nat}
    {e : ScoredDoc} (h : e ∈ mergeAndSort ts k) : e ∈ dedupMax ts := by
  unfold mergeAndSort at h
  exact (sortByDesc_perm (fun e => e.score) (dedupMax ts)).mem_iff.mp
    ((List.take_sublist _ _).mem h)

/-- Membership in the merged output implies membership among the incoming
triples. -/
theorem mem_ts_of_mem_mergeAndSort {ts : List ScoredDoc} {k : Nat}
    {e : ScoredDoc} (h : e ∈ mergeAndSort ts k) : e ∈ ts :=
  (dedupMax_strong ts e (mem_dedupMax_of_mem_mergeAndSort h)).1

theorem countP_doc_eq_one {l : List ScoredDoc} {d : String}
    (hnd : (l.map (fun e => e.document)).Nodup)
    (hd : d ∈ l.map (fun e => e.document)) :
    l.countP (fun e => e.document == d) = 1 := by
  induction l with
  | nil => simp at hd
  | cons x xs ih =>
      rw [List.map_cons, List.nodup_cons] at hnd
      rcases List.mem_cons.mp hd with rfl | hd'
      · rw [List.countP_cons_of_pos _ _ (by simp)]
        have hz : xs.countP (fun e => e.document == x.document) = 0 := by
          rw [List.countP_eq_zero]
          intro a ha hc
          exact hnd.1 (List.mem_map.mpr ⟨a, ha, (by simpa using hc)⟩)
        rw [hz]
      · have hxd : x.document ≠ d := by
          intro hc
          exact hnd.1 (hc ▸ hd')
        rw [List.countP_cons_of_neg _ _ (by simp [hxd])]
        exact ih hnd.2 hd'

/-! ## Part 8: claim theorems for the merge engine -/

/-- C1: in the cross-collection merge, for every document text occurring in
the input, the merged output (when `k` does not truncate it away) contains
exactly one entry for that document, and that entry is an incoming triple
whose score is the maximum of all incoming scores for that document — never
the last-written one. -/
theorem mergeAndSort_dedup_max (ts : List ScoredDoc) (k : Nat) (d : String)
    (hd : ∃ t ∈ ts, t.document = d) (hk : (dedupMax ts).length ≤ k) :
    (mergeAndSort ts k).countP (fun e => e.document == d) = 1 ∧
    ∀ e ∈ mergeAndSort ts k, e.document = d →
      e ∈ ts ∧ ∀ t ∈ ts, t.document = d → t.score ≤ e.score := by
  constructor
  · have hperm : (sortByDesc (fun e => e.score) (dedupMax ts)).Perm (dedupMax ts) :=
      sortByDesc_perm _ _
    have hlen : (sortByDesc (fun e => e.score) (dedupMax ts)).length ≤ k := by
      rw [hperm.length_eq]; exact hk
    unfold mergeAndSort
    rw [List.take_of_length_le hlen, hperm.countP_eq]
    refine countP_doc_eq_one (dedupMax_docs_nodup ts) ?_
    obtain ⟨t, ht, htd⟩ := hd
    exact mem_docs_dedupMax.mpr (List.mem_map.mpr ⟨t, ht, htd⟩)
  · intro e he hed
    obtain ⟨hmem, hmax⟩ := dedupMax_strong ts e (mem_dedupMax_of_mem_mergeAndSort he)
    exact ⟨hmem, fun t ht htd => hmax t ht (htd.trans hed.symm)⟩

/-- C1 witness: merging the same document with scores 0.3 and 0.8 yields one
entry, with score 0.8. -/
theorem mergeAndSort_dedup_max_witness :
    (∃ t ∈ [ScoredDoc.mk (mkRat 3 10) "doc" [], ScoredDoc.mk (mkRat 4 5) "doc" []],
        t.document = "doc") ∧
    (dedupMax [ScoredDoc.mk (mkRat 3 10) "doc" [], ScoredDoc.mk (mkRat 4 5) "doc" []]).length ≤ 5 ∧
    ((mergeAndSort [ScoredDoc.mk (mkRat 3 10) "doc" [], ScoredDoc.mk (mkRat 4 5) "doc" []] 5).countP
        (fun e => e.document == "doc") = 1 ∧
      ∀ e ∈ mergeAndSort [ScoredDoc.mk (mkRat 3 10) "doc" [], ScoredDoc.mk (mkRat 4 5) "doc" []] 5,
        e.document = "doc" →
        e ∈ [ScoredDoc.mk (mkRat 3 10) "doc" [], ScoredDoc.mk (mkRat 4 5) "doc" []] ∧
        ∀ t ∈ [ScoredDoc.mk (mkRat 3 10) "doc" [], ScoredDoc.mk (mkRat 4 5) "doc" []],
          t.document = "doc" → t.score ≤ e.score) :=
  ⟨by decide, by decide,
    mergeAndSort_dedup_max _ 5 "doc" (by decide) (by decide)⟩

/-- C2: merging `N > k` already-deduplicated scored documents yields exactly
`k` entries, sorted descending by score, and they are the `k` highest: the
output together with some remainder is a permutation of the input, every
output score dominating every remainder score. -/
theorem mergeAndSort_topk (ts : List ScoredDoc) (k : Nat)
    (hnd : (ts.map (fun e => e.document)).Nodup) (hk : k < ts.length) :
    (mergeAndSort ts k).length = k ∧
    SortedDescBy (fun e => e.score) (mergeAndSort ts k) ∧
    ∃ rest, ((mergeAndSort ts k) ++ rest).Perm ts ∧
      ∀ e ∈ mergeAndSort ts k, ∀ e' ∈ rest, e'.score ≤ e.score := by
  have hded : dedupMax ts = ts := dedupMax_eq_of_nodup hnd
  have hperm : (sortByDesc (fun e => e.score) ts).Perm ts := sortByDesc_perm _ _
  have hsorted : SortedDescBy (fun e => e.score) (sortByDesc (fun e => e.score) ts) :=
    sortByDesc_sorted _ _
  have hms : mergeAndSort ts k = (sortByDesc (fun e => e.score) ts).take k := by
    unfold mergeAndSort; rw [hded]
  refine ⟨?_, ?_, ?_⟩
  · rw [hms, List.length_take, hperm.length_eq]
    exact Nat.min_eq_left (le_of_lt hk)
  · rw [hms]
    exact hsorted.sublist (List.take_sublist _ _)
  · refine ⟨(sortByDesc (fun e => e.score) ts).drop k, ?_, ?_⟩
    · rw [hms, List.take_append_drop]
      exact hperm
    · intro e he e' he'
      rw [hms] at he
      have hsorted' : SortedDescBy (fun e : ScoredDoc => e.score)
          ((sortByDesc (fun e : ScoredDoc => e.score) ts).take k ++
            (sortByDesc (fun e : ScoredDoc => e.score) ts).drop k) := by
        rw [List.take_append_drop]
        exact hsorted
      exact (List.pairwise_append.mp hsorted').2.2 e he e' he'

/-- C2 witness: merging 3 deduplicated documents with `k = 2`. -/
theorem mergeAndSort_topk_witness :
    (([ScoredDoc.mk 1 "a" [], ScoredDoc.mk 3 "b" [], ScoredDoc.mk 2 "c" []].map
        (fun e => e.document)).Nodup) ∧
    2 < ([ScoredDoc.mk 1 "a" [], ScoredDoc.mk 3 "b" [], ScoredDoc.mk 2 "c" []].length) ∧
    ((mergeAndSort [ScoredDoc.mk 1 "a" [], ScoredDoc.mk 3 "b" [], ScoredDoc.mk 2 "c" []] 2).length = 2 ∧
      SortedDescBy (fun e : ScoredDoc => e.score)
        (mergeAndSort [ScoredDoc.mk 1 "a" [], ScoredDoc.mk 3 "b" [], ScoredDoc.mk 2 "c" []] 2) ∧
      ∃ rest,
        ((mergeAndSort [ScoredDoc.mk 1 "a" [], ScoredDoc.mk 3 "b" [], ScoredDoc.mk 2 "c" []] 2) ++ rest).Perm
          [ScoredDoc.mk 1 "a" [], ScoredDoc.mk 3 "b" [], ScoredDoc.mk 2 "c" []] ∧
        ∀ e ∈ mergeAndSort [ScoredDoc.mk 1 "a" [], ScoredDoc.mk 3 "b" [], ScoredDoc.mk 2 "c" []] 2,
          ∀ e' ∈ rest, e'.score ≤ e.score) :=
  ⟨by decide, by decide,
    mergeAndSort_topk _ 2 (by decide) (by decide)⟩

/-- C6: equal-score entries of the merged output keep their original
first-encounter order — the equal-score entries of the output form a prefix of
the equal-score entries of the dedup map, which itself lists documents in
first-encounter order of the merge input. -/
theorem mergeAndSort_stable_tiebreak (ts : List ScoredDoc) (k : Nat) (s : ℚ) :
    (∃ rest, (dedupMax ts).filter (fun e => e.score == s) =
      (mergeAndSort ts k).filter (fun e => e.score == s) ++ rest) ∧
    (dedupMax ts).map (fun e => e.document) = keepFirst (ts.map (fun e => e.document)) := by
  refine ⟨?_, dedupMax_docs ts⟩
  refine ⟨((sortByDesc (fun e => e.score) (dedupMax ts)).drop k).filter
    (fun e => e.score == s), ?_⟩
  have hsplit := List.take_append_drop k (sortByDesc (fun e => e.score) (dedupMax ts))
  calc (dedupMax ts).filter (fun e => e.score == s)
      = (sortByDesc (fun e => e.score) (dedupMax ts)).filter (fun e => e.score == s) :=
        (sortByDesc_filter _ _ s).symm
    _ = ((sortByDesc (fun e => e.score) (dedupMax ts)).take k ++
          (sortByDesc (fun e => e.score) (dedupMax ts)).drop k).filter
            (fun e => e.score == s) := by rw [hsplit]
    _ = (mergeAndSort ts k).filter (fun e => e.score == s) ++
          ((sortByDesc (fun e => e.score) (dedupMax ts)).drop k).filter
            (fun e => e.score == s) := by
        rw [List.filter_append]; rfl

/-- C3: the hybrid coordinator raises `HybridSearchExhausted` exactly when
every `(collection, query)` task failed; with at least one success it returns
fused per-query results, each entry drawn from some successful task's
results. -/
theorem queryCollectionHybrid_exhausted (tasks : List HybridTask)
    (queries : List String) (k : Nat) :
    (queryCollectionHybrid tasks queries k = Except.error () ↔
      ∀ t ∈ tasks, t.result = none) ∧
    ((∃ t ∈ tasks, t.result ≠ none) →
      ∃ ls, queryCollectionHybrid tasks queries k = Except.ok ls ∧
        ∀ l ∈ ls, ∀ e ∈ l, ∃ t ∈ tasks, ∃ r, t.result = some r ∧ e ∈ r) := by
  constructor
  · constructor
    · intro herr
      unfold queryCollectionHybrid at herr
      by_cases hall : tasks.all (fun t => t.result.isNone) = true
      · intro t ht
        have := List.all_eq_true.mp hall t ht
        exact Option.isNone_iff_eq_none.mp this
      · rw [if_neg hall] at herr
        exact absurd herr (by simp)
    · intro hall
      unfold queryCollectionHybrid
      rw [if_pos (List.all_eq_true.mpr (fun t ht =>
        Option.isNone_iff_eq_none.mpr (hall t ht)))]
  · intro ⟨t0, ht0, hne⟩
    have hall : tasks.all (fun t => t.result.isNone) = false := by
      rw [List.all_eq_false]
      exact ⟨t0, ht0, by simpa [Option.isNone_iff_eq_none] using hne⟩
    unfold queryCollectionHybrid
    rw [if_neg (by simp [hall])]
    refine ⟨_, rfl, ?_⟩
    intro l hl e he
    obtain ⟨q, _, hq⟩ := List.mem_map.mp hl
    rw [← hq] at he
    have hmem := mem_ts_of_mem_mergeAndSort he
    obtain ⟨inner, hinner, heinner⟩ := List.mem_flatten.mp hmem
    obtain ⟨t, htf, htinner⟩ := List.mem_map.mp hinner
    have htasks : t ∈ tasks := (List.mem_filter.mp htf).1
    refine ⟨t, htasks, ?_⟩
    match hres : t.result with
    | none =>
        rw [hres] at htinner
        simp only [Option.getD_none] at htinner
        rw [← htinner] at heinner
        exact absurd heinner (List.not_mem_nil e)
    | some r =>
        refine ⟨r, rfl, ?_⟩
        rw [hres] at htinner
        simp only [Option.getD_some] at htinner
        rwa [htinner]

/-- C3 witness: one failed and one successful task. -/
theorem queryCollectionHybrid_exhausted_witness :
    (∃ t ∈ [HybridTask.mk "c1" "q" none,
        HybridTask.mk "c2" "q" (some [ScoredDoc.mk 1 "d" []])], t.result ≠ none) ∧
    (∃ ls, queryCollectionHybrid
        [HybridTask.mk "c1" "q" none,
          HybridTask.mk "c2" "q" (some [ScoredDoc.mk 1 "d" []])] ["q"] 2 = Except.ok ls ∧
      ∀ l ∈ ls, ∀ e ∈ l,
        ∃ t ∈ [HybridTask.mk "c1" "q" none,
          HybridTask.mk "c2" "q" (some [ScoredDoc.mk 1 "d" []])],
          ∃ r, t.result = some r ∧ e ∈ r) :=
  ⟨by decide,
    (queryCollectionHybrid_exhausted _ ["q"] 2).2 (by decide)⟩

/-- C5: a vector longer than the configured dimension `D` is rejected with
`DimensionError`; one not longer is accepted, zero-padded to exactly `D`
components, its original components unchanged. -/
theorem normalizeVector_dimension_guard (D : Nat) (v : List ℚ) :
    (D < v.length → normalizeVector D v = Except.error "DimensionError") ∧
    (v.length ≤ D →
      normalizeVector D v = Except.ok (v ++ List.replicate (D - v.length) 0) ∧
      (v ++ List.replicate (D - v.length) 0).length = D ∧
      (v ++ List.replicate (D - v.length) 0).take v.length = v ∧
      ∀ x ∈ (v ++ List.replicate (D - v.length) 0).drop v.length, x = 0) := by
  constructor
  · intro h
    unfold normalizeVector
    rw [if_pos h]
  · intro h
    refine ⟨?_, ?_, ?_, ?_⟩
    · unfold normalizeVector
      rw [if_neg (not_lt.mpr h)]
    · rw [List.length_append, List.length_replicate]
      omega
    · exact List.take_left' rfl
    · intro x hx
      rw [List.drop_left' rfl] at hx
      exact List.eq_of_mem_replicate hx

/-- C5 witness: dimension 3 — `[1,2,3,4]` is rejected, `[1,2]` is padded to
`[1,2,0]`. -/
theorem normalizeVector_dimension_guard_witness :
    (3 < ([1, 2, 3, 4] : List ℚ).length ∧
      normalizeVector 3 [1, 2, 3, 4] = Except.error "DimensionError") ∧
    (([1, 2] : List ℚ).length ≤ 3 ∧
      normalizeVector 3 [1, 2] =
        Except.ok ([1, 2] ++ List.replicate (3 - ([1, 2] : List ℚ).length) 0)) :=
  ⟨⟨by decide, (normalizeVector_dimension_guard 3 [1, 2, 3, 4]).1 (by decide)⟩,
    ⟨by decide, ((normalizeVector_dimension_guard 3 [1, 2]).2 (by decide)).1⟩⟩

/-- C7: a query matching nothing yields an empty-but-well-formed result, not
an error: an empty probe list is a no-op; probing an empty collection returns
one empty inner sequence per probe in each of the four parallel sequences; and
a hybrid fan-out whose tasks all succeed with empty results returns an
`Except.ok` of empty per-query lists — distinguishable from the total-failure
signal `Except.error ()`. -/
theorem query_no_match_empty_result (sim : List ℚ → List ℚ → ℚ)
    (items : List VectorItem) (vectors : List (List ℚ)) (limit : Nat)
    (tasks : List HybridTask) (queries : List String) (k : Nat) :
    searchStore sim items [] limit = none ∧
    (vectors ≠ [] →
      searchStore sim [] vectors limit = some
        { ids := vectors.map (fun _ => [])
          distances := vectors.map (fun _ => [])
          documents := vectors.map (fun _ => [])
          metadatas := vectors.map (fun _ => []) }) ∧
    (tasks ≠ [] → (∀ t ∈ tasks, t.result = some []) →
      queryCollectionHybrid tasks queries k =
        Except.ok (queries.map (fun _ => [])) ∧
      queryCollectionHybrid tasks queries k ≠ Except.error ()) := by
  refine ⟨rfl, ?_, ?_⟩
  · intro hne
    unfold searchStore
    rw [if_neg (by simpa using hne)]
    have htop : ∀ v, topFor sim [] v limit = [] := fun v => by
      simp [topFor, sortByDesc]
    simp [htop]
  · intro hne hall
    have hsucc : tasks.all (fun t => t.result.isNone) = false := by
      rw [List.all_eq_false]
      obtain ⟨t0, ht0⟩ := List.exists_mem_of_ne_nil tasks hne
      exact ⟨t0, ht0, by simp [hall t0 ht0]⟩
    have hok : queryCollectionHybrid tasks queries k =
        Except.ok (queries.map (fun _ => [])) := by
      unfold queryCollectionHybrid
      rw [if_neg (by simp [hsucc])]
      refine congrArg Except.ok (List.map_congr_left (fun q _ => ?_))
      have hflat : ((tasks.filter (fun t => t.query == q)).map
          (fun t => t.result.getD [])).flatten = [] := by
        rw [List.flatten_eq_nil_iff]
        intro l hl
        obtain ⟨t, htf, htl⟩ := List.mem_map.mp hl
        rw [hall t (List.mem_filter.mp htf).1] at htl
        exact htl.symm
      rw [hflat]
      simp [mergeAndSort, dedupMax, sortByDesc]
    exact ⟨hok, by rw [hok]; simp⟩

/-- C7 witness: one probe vector against an empty collection, and one
successful-but-empty hybrid task. -/
theorem query_no_match_empty_result_witness :
    (([[(1 : ℚ)]] : List (List ℚ)) ≠ [] ∧
      searchStore (fun _ _ => 0) [] [[(1 : ℚ)]] 4 = some
        { ids := [[]], distances := [[]], documents := [[]], metadatas := [[]] }) ∧
    ([HybridTask.mk "c" "q" (some [])] ≠ [] ∧
      (∀ t ∈ [HybridTask.mk "c" "q" (some [])], t.result = some []) ∧
      queryCollectionHybrid [HybridTask.mk "c" "q" (some [])] ["q"] 3 =
        Except.ok [[]]) := by
  have h := query_no_match_empty_result (fun _ _ => 0) [] [[(1 : ℚ)]] 4
    [HybridTask.mk "c" "q" (some [])] ["q"] 3
  refine ⟨⟨by decide, ?_⟩, by decide, by decide, ?_⟩
  · simpa using h.2.1 (by decide)
  · simpa using (h.2.2 (by decide) (by decide)).1

/-! ## Part 9: claim theorem for the similarity mapping -/

theorem dotR_self_nonneg {n : Nat} (u : Fin n → ℝ) : 0 ≤ dotR u u :=
  Finset.sum_nonneg (fun i _ => mul_self_nonneg (u i))

theorem abs_dotR_le {n : Nat} (u v : Fin n → ℝ) :
    |dotR u v| ≤ normR u * normR v := by
  have hsq : ∀ w : Fin n → ℝ, dotR w w = ∑ i, w i ^ 2 := by
    intro w
    unfold dotR
    exact Finset.sum_congr rfl (fun i _ => (sq (w i)).symm)
  rw [abs_le]
  constructor
  · have h := Real.sum_mul_le_sqrt_mul_sqrt Finset.univ (fun i => -u i) v
    simp only [neg_mul, Finset.sum_neg_distrib, neg_sq] at h
    have : -dotR u v ≤ Real.sqrt (∑ i, u i ^ 2) * Real.sqrt (∑ i, v i ^ 2) := by
      simpa [dotR] using h
    rw [normR, normR, hsq u, hsq v]
    linarith
  · have h := Real.sum_mul_le_sqrt_mul_sqrt Finset.univ u v
    rw [normR, normR, hsq u, hsq v]
    simpa [dotR] using h

/-- C4: the similarity reported by `search` is `(2 − cosine_distance)/2`; for
any non-degenerate pair of vectors it lies in `[0, 1]`; identical vectors have
cosine distance `0` and similarity exactly `1`. -/
theorem search_similarity_range {n : Nat} (u v : Fin n → ℝ)
    (hu : dotR u u ≠ 0) (hv : dotR v v ≠ 0) :
    similarity u v = (2 - cosineDistance u v) / 2 ∧
    0 ≤ similarity u v ∧ similarity u v ≤ 1 ∧
    (u = v → cosineDistance u v = 0 ∧ similarity u v = 1) := by
  have hupos : 0 < dotR u u := lt_of_le_of_ne (dotR_self_nonneg u) (Ne.symm hu)
  have hvpos : 0 < dotR v v := lt_of_le_of_ne (dotR_self_nonneg v) (Ne.symm hv)
  have hnu : 0 < normR u := Real.sqrt_pos.mpr hupos
  have hnv : 0 < normR v := Real.sqrt_pos.mpr hvpos
  have hN : 0 < normR u * normR v := mul_pos hnu hnv
  have habs := abs_dotR_le u v
  rw [abs_le] at habs
  have hq1 : dotR u v / (normR u * normR v) ≤ 1 := by
    rw [div_le_one hN]
    exact habs.2
  have hq2 : -1 ≤ dotR u v / (normR u * normR v) := by
    rw [neg_le, ← neg_div]
    rw [div_le_one hN]
    linarith [habs.1]
  refine ⟨rfl, ?_, ?_, ?_⟩
  · unfold similarity cosineDistance
    linarith
  · unfold similarity cosineDistance
    linarith
  · intro huv
    subst huv
    have hdd : dotR u u / (normR u * normR u) = 1 := by
      rw [normR, Real.mul_self_sqrt (dotR_self_nonneg u)]
      exact div_self hu
    constructor
    · unfold cosineDistance
      rw [hdd]
      ring
    · unfold similarity cosineDistance
      rw [hdd]
      ring

/-- C4 witness: the one-dimensional vector `(1)` against itself. -/
theorem search_similarity_range_witness :
    dotR (fun _ : Fin 1 => (1 : ℝ)) (fun _ : Fin 1 => (1 : ℝ)) ≠ 0 ∧
    0 ≤ similarity (fun _ : Fin 1 => (1 : ℝ)) (fun _ : Fin 1 => (1 : ℝ)) ∧
    similarity (fun _ : Fin 1 => (1 : ℝ)) (fun _ : Fin 1 => (1 : ℝ)) = 1 := by
  have hne : dotR (fun _ : Fin 1 => (1 : ℝ)) (fun _ : Fin 1 => (1 : ℝ)) ≠ 0 := by
    unfold dotR
    norm_num
  obtain ⟨_, h0, _, hid⟩ := search_similarity_range
    (fun _ : Fin 1 => (1 : ℝ)) (fun _ : Fin 1 => (1 : ℝ)) hne hne
  exact ⟨hne, h0, (hid rfl).2⟩

/-! ## Part 10: chat-table lemmas and claim theorems -/

theorem updateFirst_decomp {α : Type} (p : α → Bool) (f : α → α)
    (l : List α) (r : α) (h : l.find? p = some r) :
    ∃ l1 l2, l = l1 ++ r :: l2 ∧ (∀ s ∈ l1, p s = false) ∧
      updateFirst p f l = l1 ++ f r :: l2 := by
  induction l with
  | nil => simp [List.find?] at h
  | cons x xs ih =>
      by_cases hp : p x = true
      · rw [List.find?_cons_of_pos _ hp] at h
        obtain rfl : x = r := Option.some_injective _ h
        exact ⟨[], xs, rfl, by simp, by simp [updateFirst, hp]⟩
      · rw [List.find?_cons_of_neg _ (by simpa using hp)] at h
        obtain ⟨l1, l2, hls, hall, hupd⟩ := ih h
        refine ⟨x :: l1, l2, by rw [hls]; rfl, ?_, ?_⟩
        · intro s hs
          rcases List.mem_cons.mp hs with rfl | hs
          · simpa using hp
          · exact hall s hs
        · rw [updateFirst, if_neg hp, hupd]
          rfl

theorem dictGet_nil (k : String) : dictGet [] k = none := rfl

theorem dictGet_cons (k0 : String) (v0 : PyVal) (rest : List (String × PyVal))
    (k : String) :
    dictGet ((k0, v0) :: rest) k =
      if k0 == k then some v0 else dictGet rest k := by
  by_cases h : (k0 == k) = true
  · rw [if_pos h, dictGet,
      @List.find?_cons_of_pos _ (fun p => p.1 == k) (k0, v0) rest h]
    rfl
  · rw [if_neg h, dictGet,
      @List.find?_cons_of_neg _ (fun p => p.1 == k) (k0, v0) rest (by simpa using h)]
    rfl

theorem dictGet_dictSet_self (d : List (String × PyVal)) (k : String) (v : PyVal) :
    dictGet (dictSet d k v) k = some v := by
  induction d with
  | nil =>
      rw [dictSet, dictGet_cons, if_pos (beq_self_eq_true k)]
  | cons p rest ih =>
      obtain ⟨k0, v0⟩ := p
      by_cases hk : (k0 == k) = true
      · rw [dictSet, if_pos hk, dictGet_cons, if_pos (beq_self_eq_true k)]
      · rw [dictSet, if_neg hk, dictGet_cons, if_neg hk]
        exact ih

theorem dictGet_dictSet_ne (d : List (String × PyVal)) (k k' : String) (v : PyVal)
    (h : k' ≠ k) : dictGet (dictSet d k v) k' = dictGet d k' := by
  have hkk' : (k == k') = false := by
    simp only [beq_eq_false_iff_ne, ne_eq]
    exact fun hc => h hc.symm
  induction d with
  | nil =>
      rw [dictSet, dictGet_cons, if_neg (by simp [hkk'])]
  | cons p rest ih =>
      obtain ⟨k0, v0⟩ := p
      by_cases hk : (k0 == k) = true
      · have hk0 : k0 = k := by simpa using hk
        rw [dictSet, if_pos hk, dictGet_cons, dictGet_cons, hk0,
          if_neg (by simp [hkk'])]
        rw [if_neg (by simp [hkk'])]
      · rw [dictSet, if_neg hk, dictGet_cons, dictGet_cons]
        by_cases hk' : (k0 == k') = true
        · rw [if_pos hk', if_pos hk']
        · rw [if_neg hk', if_neg hk']
          exact ih

theorem dictGet_eq_none_iff (d : List (String × PyVal)) (k : String) :
    dictGet d k = none ↔ ∀ p ∈ d, p.1 ≠ k := by
  rw [dictGet, Option.map_eq_none', List.find?_eq_none]
  constructor
  · intro h p hp
    intro hc
    exact absurd (by simp [hc]) (h p hp)
  · intro h p hp
    simpa using h p hp

theorem dictGet_dictMerge_right (b : List (String × PyVal)) (k : String)
    (h : ∀ p ∈ b, p.1 ≠ k) :
    ∀ a, dictGet (dictMerge a b) k = dictGet a k := by
  induction b with
  | nil => intro a; rfl
  | cons p rest ih =>
      intro a
      rw [dictMerge, List.foldl_cons]
      have hrec := ih (fun q hq => h q (List.mem_cons_of_mem _ hq)) (dictSet a p.1 p.2)
      rw [dictMerge] at hrec
      rw [hrec]
      exact dictGet_dictSet_ne a p.1 k p.2
        (fun hc => h p (List.mem_cons_self _ _) hc.symm)

theorem dictGet_dictMerge_left (b : List (String × PyVal)) (k : String) (v : PyVal)
    (hnd : (b.map Prod.fst).Nodup) (h : dictGet b k = some v) :
    ∀ a, dictGet (dictMerge a b) k = some v := by
  induction b with
  | nil => rw [dictGet_nil] at h; exact absurd h (by simp)
  | cons p rest ih =>
      intro a
      obtain ⟨k0, v0⟩ := p
      rw [List.map_cons, List.nodup_cons] at hnd
      rw [dictMerge, List.foldl_cons]
      rw [dictGet_cons] at h
      by_cases hk : (k0 == k) = true
      · rw [if_pos hk] at h
        have hv : v0 = v := by simpa using h
        have hk0 : k0 = k := by simpa using hk
        subst hv
        subst hk0
        have hnone : ∀ q ∈ rest, q.1 ≠ k0 := by
          intro q hq hc
          exact hnd.1 (hc ▸ List.mem_map.mpr ⟨q, hq, rfl⟩)
        have hstep := dictGet_dictMerge_right rest k0 hnone (dictSet a k0 v0)
        rw [dictMerge] at hstep
        rw [hstep]
        exact dictGet_dictSet_self a k0 v0
      · rw [if_neg hk] at h
        have hstep := ih hnd.2 h (dictSet a k0 v0)
        rw [dictMerge] at hstep
        exact hstep

/-- C8: deleting a chat whose id has no associated shared chat removes the
chat row but returns `False`, because the return value of
`delete_chat_by_id` (and `delete_chat_by_id_and_user_id`) is exactly whether a
`shared-<id>` row was deleted; it is `True` only when such a row existed. -/
theorem delete_chat_returns_shared_deletion (db : ChatDB) (id uid : String) :
    ((∀ r ∈ db, r.user_id ≠ "shared-" ++ id) →
      (delete_chat_by_id db id).2 = false ∧
      (∀ r ∈ (delete_chat_by_id db id).1, r.id ≠ id) ∧
      (delete_chat_by_id_and_user_id db id uid).2 = false ∧
      (∀ r ∈ (delete_chat_by_id_and_user_id db id uid).1,
        ¬(r.id = id ∧ r.user_id = uid))) ∧
    ((delete_chat_by_id db id).2 = true →
      ∃ r ∈ db, r.user_id = "shared-" ++ id) ∧
    ((delete_chat_by_id_and_user_id db id uid).2 = true →
      ∃ r ∈ db, r.user_id = "shared-" ++ id) := by
  have hsharedlen : ∀ (l : List ChatRow),
      (∀ r ∈ l, r.user_id ≠ "shared-" ++ id) →
      (delete_shared_chat_by_chat_id l id).2 = false := by
    intro l hl
    unfold delete_shared_chat_by_chat_id
    have : l.filter (fun r => !(r.user_id == "shared-" ++ id)) = l := by
      rw [List.filter_eq_self]
      intro r hr
      simp [hl r hr]
    simp [this]
  have hsharedlen' : ∀ (l : List ChatRow),
      (delete_shared_chat_by_chat_id l id).2 = true →
      ∃ r ∈ l, r.user_id = "shared-" ++ id := by
    intro l hl
    unfold delete_shared_chat_by_chat_id at hl
    simp only [decide_eq_true_eq] at hl
    obtain ⟨r, hr, hrp⟩ := List.length_filter_lt_length_iff_exists.mp hl
    refine ⟨r, hr, ?_⟩
    simpa using hrp
  refine ⟨?_, ?_, ?_⟩
  · intro hno
    have h1 : ∀ r ∈ db.filter (fun r => !(r.id == id)), r.user_id ≠ "shared-" ++ id :=
      fun r hr => hno r (List.mem_filter.mp hr).1
    have h2 : ∀ r ∈ db.filter (fun r => !(r.id == id && r.user_id == uid)),
        r.user_id ≠ "shared-" ++ id :=
      fun r hr => hno r (List.mem_filter.mp hr).1
    refine ⟨?_, ?_, ?_, ?_⟩
    · show (true && (delete_shared_chat_by_chat_id
        (db.filter (fun r => !(r.id == id))) id).2) = false
      rw [hsharedlen _ h1]
      rfl
    · intro r hr
      have hr1 : r ∈ (db.filter (fun r => !(r.id == id))).filter
          (fun r => !(r.user_id == "shared-" ++ id)) := hr
      have hr2 := (List.mem_filter.mp (List.mem_filter.mp hr1).1).2
      intro hc
      simp [hc] at hr2
    · show (true && (delete_shared_chat_by_chat_id
        (db.filter (fun r => !(r.id == id && r.user_id == uid))) id).2) = false
      rw [hsharedlen _ h2]
      rfl
    · intro r hr
      have hr1 : r ∈ (db.filter (fun r => !(r.id == id && r.user_id == uid))).filter
          (fun r => !(r.user_id == "shared-" ++ id)) := hr
      have hr2 := (List.mem_filter.mp (List.mem_filter.mp hr1).1).2
      rintro ⟨hc1, hc2⟩
      simp [hc1, hc2] at hr2
  · intro htrue
    have h : (delete_shared_chat_by_chat_id
        (db.filter (fun r => !(r.id == id))) id).2 = true := by
      simpa [delete_chat_by_id] using htrue
    obtain ⟨r, hr, hru⟩ := hsharedlen' _ h
    exact ⟨r, (List.mem_filter.mp hr).1, hru⟩
  · intro htrue
    have h : (delete_shared_chat_by_chat_id
        (db.filter (fun r => !(r.id == id && r.user_id == uid))) id).2 = true := by
      simpa [delete_chat_by_id_and_user_id] using htrue
    obtain ⟨r, hr, hru⟩ := hsharedlen' _ h
    exact ⟨r, (List.mem_filter.mp hr).1, hru⟩

/-- An example chat row used by the chat-table witnesses. -/
def exRow : ChatRow :=
  ⟨"c1", "u1", PyVal.pyStr "t", [], 0, 0, none, false, some true, [], none⟩

/-- C8 witness: a one-row table with no shared chat — the chat row is deleted
and the call returns `False`. -/
theorem delete_chat_returns_shared_deletion_witness :
    (∀ r ∈ [exRow], r.user_id ≠ "shared-" ++ "c1") ∧
    ((delete_chat_by_id [exRow] "c1").2 = false ∧
      (∀ r ∈ (delete_chat_by_id [exRow] "c1").1, r.id ≠ "c1") ∧
      (delete_chat_by_id_and_user_id [exRow] "c1" "u1").2 = false ∧
      (∀ r ∈ (delete_chat_by_id_and_user_id [exRow] "c1" "u1").1,
        ¬(r.id = "c1" ∧ r.user_id = "u1"))) :=
  ⟨by decide,
    (delete_chat_returns_shared_deletion [exRow] "c1" "u1").1 (by decide)⟩

/-- C9: updating a chat's folder sets `folder_id`, stamps `updated_at`, and
always resets `pinned` to `False` (so moving a pinned chat into a folder
unpins it), while `id`, `user_id`, `title`, `chat`, `created_at`, `share_id`,
`archived` and `meta` are unchanged; only the fetched row is rewritten. -/
theorem update_chat_folder_sets_and_frames (db : ChatDB)
    (id uid fid : String) (now : Int) (r : ChatRow)
    (h : db.find? (fun s => s.id == id) = some r) :
    ∃ l1 l2, db = l1 ++ r :: l2 ∧
      (update_chat_folder_id_by_id_and_user_id db id uid fid now).1 =
        l1 ++ setFolder fid now r :: l2 ∧
      (update_chat_folder_id_by_id_and_user_id db id uid fid now).2 =
        some (setFolder fid now r) ∧
      (setFolder fid now r).folder_id = some fid ∧
      (setFolder fid now r).pinned = some false ∧
      (setFolder fid now r).updated_at = now ∧
      (setFolder fid now r).id = r.id ∧
      (setFolder fid now r).user_id = r.user_id ∧
      (setFolder fid now r).title = r.title ∧
      (setFolder fid now r).chat = r.chat ∧
      (setFolder fid now r).created_at = r.created_at ∧
      (setFolder fid now r).share_id = r.share_id ∧
      (setFolder fid now r).archived = r.archived ∧
      (setFolder fid now r).meta = r.meta := by
  obtain ⟨l1, l2, hls, _, hupd⟩ :=
    updateFirst_decomp (fun s => s.id == id) (setFolder fid now) db r h
  refine ⟨l1, l2, hls, ?_, ?_, rfl, rfl, rfl, rfl, rfl, rfl, rfl, rfl, rfl, rfl, rfl⟩
  · unfold update_chat_folder_id_by_id_and_user_id
    rw [h]
    exact hupd
  · unfold update_chat_folder_id_by_id_and_user_id
    rw [h]

/-- C9 witness: a pinned chat moved into folder `"f1"` gets unpinned. -/
theorem update_chat_folder_sets_and_frames_witness :
    ([exRow].find? (fun s => s.id == "c1") = some exRow) ∧
    ∃ l1 l2, [exRow] = l1 ++ exRow :: l2 ∧
      (update_chat_folder_id_by_id_and_user_id [exRow] "c1" "u1" "f1" 5).1 =
        l1 ++ setFolder "f1" 5 exRow :: l2 ∧
      (update_chat_folder_id_by_id_and_user_id [exRow] "c1" "u1" "f1" 5).2 =
        some (setFolder "f1" 5 exRow) ∧
      (setFolder "f1" 5 exRow).folder_id = some "f1" ∧
      (setFolder "f1" 5 exRow).pinned = some false ∧
      (setFolder "f1" 5 exRow).updated_at = 5 ∧
      (setFolder "f1" 5 exRow).id = exRow.id ∧
      (setFolder "f1" 5 exRow).user_id = exRow.user_id ∧
      (setFolder "f1" 5 exRow).title = exRow.title ∧
      (setFolder "f1" 5 exRow).chat = exRow.chat ∧
      (setFolder "f1" 5 exRow).created_at = exRow.created_at ∧
      (setFolder "f1" 5 exRow).share_id = exRow.share_id ∧
      (setFolder "f1" 5 exRow).archived = exRow.archived ∧
      (setFolder "f1" 5 exRow).meta = exRow.meta :=
  ⟨rfl, update_chat_folder_sets_and_frames [exRow] "c1" "u1" "f1" 5 exRow rfl⟩

/-- C10 counterexample: the chat with id `"c1"` exists but its chat JSON is
`{}` — no `history`, hence no `"messages"` key — so the upsert raises
`KeyError` at `history["messages"][message_id] = message` instead of storing
the message and returning the updated chat. -/
theorem upsert_message_missing_messages_key :
    (get_chat_by_id [exRow] "c1").isSome = true ∧
    upsert_message_to_chat_by_id_and_message_id [exRow] "c1" "m1"
      [("role", PyVal.pyStr "user")] 7 = Except.error "KeyError" :=
  ⟨rfl, rfl⟩

/-- The stored shape claimed by C10: the chat JSON holds the value `v` under
`history.messages[mid]` and `history.currentId` equals `mid`. -/
def storedMessage (row : ChatRow) (mid : String) (v : PyVal) : Prop :=
  ∃ h m, dictGet row.chat "history" = some (PyVal.pyDict h) ∧
    dictGet h "messages" = some (PyVal.pyDict m) ∧
    dictGet m mid = some v ∧
    dictGet h "currentId" = some (PyVal.pyStr mid)

/-- C10, amended: for a chat whose history holds a `"messages"` dict, the
upsert stores the message under `message_id` — merged key-by-key into an
existing message dict with the new keys taking precedence, or inserted
verbatim when absent — and sets `history["currentId"]`; it returns `None`
(without error) when no chat with the given id exists.  (As stated originally
the claim fails: when the history has no `"messages"` key the call raises
`KeyError` instead, see the counterexample.) -/
theorem upsert_message_upserts (db : ChatDB) (id mid : String)
    (message : List (String × PyVal)) (now : Int) :
    (get_chat_by_id db id = none →
      upsert_message_to_chat_by_id_and_message_id db id mid message now =
        Except.ok (db, none)) ∧
    (∀ r history messages,
      get_chat_by_id db id = some r →
      dictGet r.chat "history" = some (PyVal.pyDict history) →
      dictGet history "messages" = some (PyVal.pyDict messages) →
      ((dictGet messages mid = none →
        ∃ db' row, upsert_message_to_chat_by_id_and_message_id db id mid message now =
            Except.ok (db', some row) ∧
          storedMessage row mid (PyVal.pyDict message)) ∧
       (∀ old, dictGet messages mid = some (PyVal.pyDict old) →
        ∃ db' row, upsert_message_to_chat_by_id_and_message_id db id mid message now =
            Except.ok (db', some row) ∧
          storedMessage row mid (PyVal.pyDict (dictMerge old message)) ∧
          ((message.map Prod.fst).Nodup → ∀ key v, dictGet message key = some v →
            dictGet (dictMerge old message) key = some v) ∧
          (∀ key, (∀ p ∈ message, p.1 ≠ key) →
            dictGet (dictMerge old message) key = dictGet old key)))) := by
  constructor
  · intro hnone
    unfold upsert_message_to_chat_by_id_and_message_id
    rw [hnone]
  · intro r history messages hget hh hm
    have hgetD1 : (dictGet r.chat "history").getD (PyVal.pyDict []) =
        PyVal.pyDict history := by rw [hh]; rfl
    have hgetD2 : (dictGet history "messages").getD (PyVal.pyDict []) =
        PyVal.pyDict messages := by rw [hm]; rfl
    have hfind : db.find? (fun s => s.id == id) = some r := hget
    have hstored : ∀ newVal : PyVal,
        storedMessage
          (setChat (dictSet r.chat "history" (PyVal.pyDict
            (dictSet
              (dictSet history "messages"
                (PyVal.pyDict (dictSet messages mid newVal)))
              "currentId" (PyVal.pyStr mid)))) now r) mid newVal := by
      intro newVal
      refine ⟨dictSet
          (dictSet history "messages"
            (PyVal.pyDict (dictSet messages mid newVal)))
          "currentId" (PyVal.pyStr mid),
        dictSet messages mid newVal, ?_, ?_, ?_, ?_⟩
      · exact dictGet_dictSet_self r.chat "history" _
      · rw [dictGet_dictSet_ne _ "currentId" "messages" _ (by decide)]
        exact dictGet_dictSet_self history "messages" _
      · exact dictGet_dictSet_self messages mid newVal
      · exact dictGet_dictSet_self _ "currentId" _
    constructor
    · intro habs
      have heval : upsert_message_to_chat_by_id_and_message_id db id mid message now =
          Except.ok (update_chat_by_id db id
            (dictSet r.chat "history" (PyVal.pyDict
              (dictSet
                (dictSet history "messages"
                  (PyVal.pyDict (dictSet messages mid (PyVal.pyDict message))))
                "currentId" (PyVal.pyStr mid)))) now) := by
        unfold upsert_message_to_chat_by_id_and_message_id
        simp only [hget, hh, hm, habs, Option.getD_some, asDict,
          Option.isSome_none, Bool.false_eq_true, if_false]
      have hupd : update_chat_by_id db id
          (dictSet r.chat "history" (PyVal.pyDict
            (dictSet
              (dictSet history "messages"
                (PyVal.pyDict (dictSet messages mid (PyVal.pyDict message))))
              "currentId" (PyVal.pyStr mid)))) now =
          (updateFirst (fun s => s.id == id)
            (setChat (dictSet r.chat "history" (PyVal.pyDict
              (dictSet
                (dictSet history "messages"
                  (PyVal.pyDict (dictSet messages mid (PyVal.pyDict message))))
                "currentId" (PyVal.pyStr mid)))) now) db,
            some (setChat (dictSet r.chat "history" (PyVal.pyDict
              (dictSet
                (dictSet history "messages"
                  (PyVal.pyDict (dictSet messages mid (PyVal.pyDict message))))
                "currentId" (PyVal.pyStr mid)))) now r)) := by
        unfold update_chat_by_id
        rw [hfind]
      refine ⟨updateFirst (fun s => s.id == id)
          (setChat (dictSet r.chat "history" (PyVal.pyDict
            (dictSet
              (dictSet history "messages"
                (PyVal.pyDict (dictSet messages mid (PyVal.pyDict message))))
              "currentId" (PyVal.pyStr mid)))) now) db,
        setChat (dictSet r.chat "history" (PyVal.pyDict
            (dictSet
              (dictSet history "messages"
                (PyVal.pyDict (dictSet messages mid (PyVal.pyDict message))))
              "currentId" (PyVal.pyStr mid)))) now r,
        ?_, hstored (PyVal.pyDict message)⟩
      rw [heval, hupd]
    · intro old hold
      have heval : upsert_message_to_chat_by_id_and_message_id db id mid message now =
          Except.ok (update_chat_by_id db id
            (dictSet r.chat "history" (PyVal.pyDict
              (dictSet
                (dictSet history "messages"
                  (PyVal.pyDict (dictSet messages mid
                    (PyVal.pyDict (dictMerge old message)))))
                "currentId" (PyVal.pyStr mid)))) now) := by
        unfold upsert_message_to_chat_by_id_and_message_id
        simp only [hget, hh, hm, hold, Option.getD_some, asDict,
          Option.isSome_some, if_true]
      have hupd : update_chat_by_id db id
          (dictSet r.chat "history" (PyVal.pyDict
            (dictSet
              (dictSet history "messages"
                (PyVal.pyDict (dictSet messages mid
                  (PyVal.pyDict (dictMerge old message)))))
              "currentId" (PyVal.pyStr mid)))) now =
          (updateFirst (fun s => s.id == id)
            (setChat (dictSet r.chat "history" (PyVal.pyDict
              (dictSet
                (dictSet history "messages"
                  (PyVal.pyDict (dictSet messages mid
                    (PyVal.pyDict (dictMerge old message)))))
                "currentId" (PyVal.pyStr mid)))) now) db,
            some (setChat (dictSet r.chat "history" (PyVal.pyDict
              (dictSet
                (dictSet history "messages"
                  (PyVal.pyDict (dictSet messages mid
                    (PyVal.pyDict (dictMerge old message)))))
                "currentId" (PyVal.pyStr mid)))) now r)) := by
        unfold update_chat_by_id
        rw [hfind]
      refine ⟨updateFirst (fun s => s.id == id)
          (setChat (dictSet r.chat "history" (PyVal.pyDict
            (dictSet
              (dictSet history "messages"
                (PyVal.pyDict (dictSet messages mid
                  (PyVal.pyDict (dictMerge old message)))))
              "currentId" (PyVal.pyStr mid)))) now) db,
        setChat (dictSet r.chat "history" (PyVal.pyDict
            (dictSet
              (dictSet history "messages"
                (PyVal.pyDict (dictSet messages mid
                  (PyVal.pyDict (dictMerge old message)))))
              "currentId" (PyVal.pyStr mid)))) now r,
        ?_, hstored (PyVal.pyDict (dictMerge old message)), ?_, ?_⟩
      · rw [heval, hupd]
      · intro hnd key v hkv
        exact dictGet_dictMerge_left message key v hnd hkv old
      · intro key hnp
        exact dictGet_dictMerge_right message key hnp old

/-- An example chat row whose chat JSON holds a history with a messages
dict. -/
def exMsgRow : ChatRow :=
  ⟨"c2", "u1", PyVal.pyStr "t",
    [("history", PyVal.pyDict [("messages", PyVal.pyDict
        [("m0", PyVal.pyDict [("a", PyVal.pyInt 1)])])])],
    0, 0, none, false, some false, [], none⟩

/-- C10 witness: inserting a fresh message into a chat whose history has a
messages dict stores it and sets `currentId`. -/
theorem upsert_message_upserts_witness :
    (get_chat_by_id [exMsgRow] "c2" = some exMsgRow) ∧
    (dictGet [("m0", PyVal.pyDict [("a", PyVal.pyInt 1)])] "m1" = none) ∧
    (∃ db' row, upsert_message_to_chat_by_id_and_message_id [exMsgRow] "c2" "m1"
        [("role", PyVal.pyStr "user")] 7 = Except.ok (db', some row) ∧
      storedMessage row "m1" (PyVal.pyDict [("role", PyVal.pyStr "user")])) := by
  have h := (upsert_message_upserts [exMsgRow] "c2" "m1"
      [("role", PyVal.pyStr "user")] 7).2
    exMsgRow
    [("messages", PyVal.pyDict [("m0", PyVal.pyDict [("a", PyVal.pyInt 1)])])]
    [("m0", PyVal.pyDict [("a", PyVal.pyInt 1)])]
    rfl rfl rfl
  exact ⟨rfl, rfl, h.1 rfl⟩

end Temp
